import Mathlib

/-!
Verification of the command-execution and output-parsing core of the
`vscode-vsr` extension (source: `src/vsr.ts`, bundled in `src/main.ts`).

JavaScript strings are modelled as `List Char`.  Each definition below is a
shallow embedding of the corresponding TypeScript function; regular-expression
tests are embedded as executable character-list predicates implementing the
exact pattern (including greediness/backtracking where it is observable).
-/

/-- The NUL character `\x00`, the record sentinel of the commit-log format and
the field separator of name-status diff output. -/
def nulChar : Char := Char.ofNat 0

/-- The apostrophe character `'` (appears inside several stderr patterns). -/
def apos : Char := Char.ofNat 39

/-- JavaScript line terminators: `\n`, `\r`, ` `, ` `.
`.` in a JS regex without the `s` flag matches everything except these. -/
def isLineTerm (c : Char) : Bool :=
  c = Char.ofNat 10 || c = Char.ofNat 13 || c = Char.ofNat 0x2028 || c = Char.ofNat 0x2029

/-- What `.` matches in a JS regex (no `s` flag): any char except a line terminator. -/
def dotMatch (c : Char) : Bool := !(isLineTerm c)

/-- JS regex `\w`: `[A-Za-z0-9_]`. -/
def isWordChar (c : Char) : Bool :=
  (Char.ofNat 65 ≤ c && c ≤ Char.ofNat 90) || (Char.ofNat 97 ≤ c && c ≤ Char.ofNat 122) ||
  (Char.ofNat 48 ≤ c && c ≤ Char.ofNat 57) || c = Char.ofNat 95

/-- JS regex `\s` (the whitespace characters relevant to this code base). -/
def jsWs (c : Char) : Bool :=
  c = Char.ofNat 32 || c = Char.ofNat 9 || c = Char.ofNat 10 || c = Char.ofNat 13 ||
  c = Char.ofNat 12 || c = Char.ofNat 11 || c = Char.ofNat 0xa0 || c = Char.ofNat 0xfeff ||
  c = Char.ofNat 0x2028 || c = Char.ofNat 0x2029

/-- Lower-case hex digit, the character class `[0-9a-f]` of the commit regex. -/
def isHexLower (c : Char) : Bool :=
  (Char.ofNat 48 ≤ c && c ≤ Char.ofNat 57) || (Char.ofNat 97 ≤ c && c ≤ Char.ofNat 102)

/-- `consHead c ls` prepends `c` to the first segment of a split result. -/
def consHead (c : Char) : List (List Char) → List (List Char)
  | h :: r => (c :: h) :: r
  | [] => [[c]]

/-- JS `String.prototype.split(sep)` for a single-character separator. -/
def splitChar (sep : Char) : List Char → List (List Char)
  | [] => [[]]
  | c :: t => if c = sep then [] :: splitChar sep t else consHead c (splitChar sep t)

/-- JS `String.prototype.split(/\r?\n/)`: a `\n` splits, a `\r\n` pair splits,
a lone `\r` stays inside its segment. -/
def splitRN : List Char → List (List Char)
  | [] => [[]]
  | [c] => if c = Char.ofNat 10 then [[], []] else [[c]]
  | c :: c2 :: t2 =>
    if c = Char.ofNat 13 && c2 = Char.ofNat 10 then [] :: splitRN t2
    else if c = Char.ofNat 10 then [] :: splitRN (c2 :: t2)
    else consHead c (splitRN (c2 :: t2))

/-- Does predicate `p` hold of some suffix of the list (scanning left to right)? -/
def anyPos (p : List Char → Bool) : List Char → Bool
  | [] => p []
  | c :: t => p (c :: t) || anyPos p t

/-- JS `regex.test` for a plain-literal pattern: substring containment. -/
def containsSub (needle : List Char) (s : List Char) : Bool :=
  anyPos (fun t => needle.isPrefixOf t) s

/-- Case-insensitive substring containment (a literal pattern with the `i` flag). -/
def ciContains (needle : List Char) (s : List Char) : Bool :=
  containsSub (needle.map Char.toLower) (s.map Char.toLower)

/-- `gapThen post s`: some (possibly empty) run of `.`-matchable characters at
the front of `s` is followed by the literal `post` - i.e. `.*post` matches at
the start of `s`. -/
def gapThen (post : List Char) : List Char → Bool
  | [] => post.isPrefixOf ([] : List Char)
  | c :: t => post.isPrefixOf (c :: t) || (dotMatch c && gapThen post t)

/-- `gapThen1 post s`: `.+post` matches at the start of `s`. -/
def gapThen1 (post : List Char) : List Char → Bool
  | [] => false
  | c :: t => dotMatch c && gapThen post t

/-- `pre.+post` matches at the start of `s`. -/
def patAt (pre post : List Char) (s : List Char) : Bool :=
  pre.isPrefixOf s && gapThen1 post (s.drop pre.length)

/-- JS `regex.test` for an unanchored `pre.+post` pattern. -/
def patSearch (pre post : List Char) (s : List Char) : Bool :=
  anyPos (patAt pre post) s

/-- Error codes.  All constructors except `ToolNotFound` and `Cancelled` are
the members of `VsrErrorCodes` (declared in `api/vsr.d.ts`, outside `src/`)
that `src/main.ts` references; `ToolNotFound` and `Cancelled` are modelled
from the spec's error taxonomy (section 7). -/
inductive VsrErrorCodes where
  | RepositoryIsLocked
  | AuthenticationFailed
  | NotAGitRepository
  | BadConfigFile
  | CantCreatePipe
  | RepositoryNotFound
  | CantAccessRemote
  | BranchNotFullyMerged
  | NoRemoteReference
  | BranchAlreadyExists
  | InvalidBranchName
  | DirtyWorkTree
  | UnmergedChanges
  | NoUserNameConfigured
  | NoUserEmailConfigured
  | Conflict
  | PatchDoesNotApply
  | PushRejected
  | NoUpstreamBranch
  | NoStashFound
  | StashConflict
  | LocalChangesOverwritten
  | NoLocalChanges
  | UnknownPath
  | WrongCase
  | NoPathFound
  | NoRemoteRepositorySpecified
  | RemoteConnectionError
  | CantLockRef
  | CantRebaseMultipleBranches
  | ToolNotFound
  | Cancelled
deriving DecidableEq, Repr

/-- Pattern `branch '` (prefix of the BranchNotFullyMerged rule). -/
def branchApos : List Char := ("branch ").toList ++ [apos]

/-- Pattern `' is not fully merged`. -/
def notFullyMergedPost : List Char := apos :: (" is not fully merged").toList

/-- Pattern `Couldn't find remote ref`. -/
def couldntFindRemoteRef : List Char := ("Couldn").toList ++ apos :: ("t find remote ref").toList

/-- Pattern `A branch named '`. -/
def aBranchNamedApos : List Char := ("A branch named ").toList ++ [apos]

/-- Pattern `' already exists`. -/
def alreadyExistsPost : List Char := apos :: (" already exists").toList

/-- Pattern `' is not a valid branch name`. -/
def notValidBranchPost : List Char := apos :: (" is not a valid branch name").toList

/-- `getGitErrorCode` (src/main.ts): the global error classifier.  An ordered
if-chain of regex tests against stderr; the first match wins, no match yields
`none`. -/
def getGitErrorCode (stderr : List Char) : Option VsrErrorCodes :=
  if containsSub ("Another git process seems to be running in this repository").toList stderr
      || containsSub ("If no other git process is currently running").toList stderr then
    some .RepositoryIsLocked
  else if ciContains ("Authentication failed").toList stderr then
    some .AuthenticationFailed
  else if ciContains ("Not a git repository").toList stderr then
    some .NotAGitRepository
  else if containsSub ("bad config file").toList stderr then
    some .BadConfigFile
  else if containsSub ("cannot make pipe for command substitution").toList stderr
      || containsSub ("cannot create standard input pipe").toList stderr then
    some .CantCreatePipe
  else if containsSub ("Repository not found").toList stderr then
    some .RepositoryNotFound
  else if containsSub ("unable to access").toList stderr then
    some .CantAccessRemote
  else if patSearch branchApos notFullyMergedPost stderr then
    some .BranchNotFullyMerged
  else if containsSub couldntFindRemoteRef stderr then
    some .NoRemoteReference
  else if patSearch aBranchNamedApos alreadyExistsPost stderr then
    some .BranchAlreadyExists
  else if patSearch [apos] notValidBranchPost stderr then
    some .InvalidBranchName
  else if containsSub ("Please commit your changes or stash them").toList stderr
      || containsSub ("Please, commit your changes or stash them").toList stderr then
    some .DirtyWorkTree
  else
    none

/-- `GitError`'s data (class `GitError` in src/main.ts): the `ToolError` of the
spec.  Text fields are `List Char`. -/
structure GitErrorData where
  message : List Char := []
  stdout : Option (List Char) := none
  stderr : Option (List Char) := none
  exitCode : Option Int := none
  gitErrorCode : Option VsrErrorCodes := none
  gitCommand : Option (List Char) := none
deriving DecidableEq, Repr

/-- An error thrown by the runner: either a plain JS `Error` (carrying only a
message, no error code) or a `GitError`. -/
inductive ErrObj where
  | plain (message : List Char)
  | git (e : GitErrorData)
deriving DecidableEq, Repr

/-- The error code carried by a thrown error: plain `Error`s carry none. -/
def ErrObj.errCode : ErrObj → Option VsrErrorCodes
  | .plain _ => none
  | .git e => e.gitErrorCode

/-- Outcome of `Vsr.spawn`: either a synchronous throw (before any subprocess)
or a spawned child process carrying the argument vector handed to `cp.spawn`. -/
inductive SpawnOutcome where
  | threw (e : ErrObj)
  | spawned (args : List (List Char))
deriving DecidableEq, Repr

/-- `Vsr.spawn` (src/main.ts): if `this.path` is falsy (the empty string) it
throws a plain `Error` synchronously; otherwise it appends `--nocolours` and
hands the arguments to `cp.spawn` (a subprocess attempt).  Environment set-up
and logging are not modelled. -/
def Vsr.spawn (vsrPath : List Char) (args : List (List Char)) : SpawnOutcome :=
  if vsrPath = [] then
    .threw (.plain ("vsr could not be found in the system.").toList)
  else
    .spawned (args ++ [("--nocolours").toList])

/-- The error code of a spawn outcome (`none` when nothing was thrown or the
thrown error carries no code). -/
def SpawnOutcome.errCode : SpawnOutcome → Option VsrErrorCodes
  | .threw e => e.errCode
  | .spawned _ => none

/-- `cpErrorHandler` (src/main.ts): an `ENOENT` failure from `cp.spawn` (the
binary does not exist) is wrapped as a `GitError` whose code is
`NotAGitRepository`; every other error is passed through unchanged. -/
def cpErrorHandler (errMessage : List Char) : ErrObj :=
  if containsSub ("ENOENT").toList errMessage then
    .git { message := ("Failed to execute git (ENOENT)").toList
           gitErrorCode := some .NotAGitRepository }
  else
    .plain errMessage

/-- `IExecutionResult<string>` (src/main.ts): exit code plus decoded stdout and
stderr of one finished subprocess. -/
structure ExecResult where
  exitCode : Int
  stdout : List Char
  stderr : List Char
deriving DecidableEq, Repr

/-- The `GitError` that `Vsr._exec` rejects with on a non-zero exit code. -/
def mkExecFailure (res : ExecResult) (cmd : List Char) : GitErrorData :=
  { message := ("Failed to execute vsr").toList
    stdout := some res.stdout
    stderr := some res.stderr
    exitCode := some res.exitCode
    gitErrorCode := getGitErrorCode res.stderr
    gitCommand := some cmd }

/-- `Vsr._exec` (src/main.ts), given the subprocess's buffered result: a
non-zero (truthy) exit code rejects with a classified `GitError` before any
parser can run; otherwise the result is returned.  Spawning, encoding and
logging are not modelled; `cmd` is `args[0]`. -/
def Vsr.execOutcome (res : ExecResult) (cmd : List Char) : Except GitErrorData ExecResult :=
  if res.exitCode ≠ 0 then .error (mkExecFailure res cmd) else .ok res

/-- `Commit` (src/main.ts).  The source stores `authorDate`/`commitDate` as JS
`Date` objects built by `new Date(Number(field) * 1000)`; here the raw matched
field text is kept (no claim concerns the `Date` conversion). -/
structure Commit where
  hash : List Char
  message : List Char
  parents : List (List Char)
  authorDate : List Char
  authorName : List Char
  authorEmail : List Char
  commitDate : List Char
deriving DecidableEq, Repr

/-- The seven capture groups of one match of `commitRegex`
(`/([0-9a-f]{40})\n(.*)\n(.*)\n(.*)\n(.*)\n(.*)(?:\n([^]*?))?(?:\x00)/gm`),
plus nothing else; group 7 (the message) is optional. -/
structure RawMatch where
  hash : List Char
  authorName : List Char
  authorEmail : List Char
  authorDate : List Char
  commitDate : List Char
  parents : List Char
  message : Option (List Char)
deriving DecidableEq, Repr

/-- One `(.*)\n` unit of the commit regex: the maximal run of `.`-matchable
characters must be followed by a literal `\n` (no shorter run can be, since
every character inside the run is not `\n`). -/
def lineField (s : List Char) : Option (List Char × List Char) :=
  let r := s.takeWhile dotMatch
  match s.drop r.length with
  | c :: t => if c = Char.ofNat 10 then some (r, t) else none
  | [] => none

/-- Result of matching the tail `(.*)(?:\n([^]*?))?(?:\x00)` of the commit
regex: group 6 (`parents`), optional group 7 (`message`) and the text after
the consumed `\x00`. -/
structure TailMatch where
  parents : List Char
  message : Option (List Char)
  rest : List Char
deriving DecidableEq, Repr

/-- The regex tail `(?:\n([^]*?))?(?:\x00)` tried for one candidate value of
group 6 (`parents`), with `t` the text after that candidate.  The optional
group is tried first (greedy `?`); inside it the lazy `[^]*?` takes the
shortest run reaching a `\x00`. -/
def tryTail (parents : List Char) (t : List Char) : Option TailMatch :=
  match t with
  | c :: t2 =>
    if c = Char.ofNat 10 && t2.contains nulChar then
      some { parents := parents
             message := some (t2.takeWhile (· != nulChar))
             rest := (t2.dropWhile (· != nulChar)).drop 1 }
    else if c = nulChar then
      some { parents := parents, message := none, rest := t2 }
    else none
  | [] => none

/-- Backtracking loop for the greedy group 6 `(.*)`: candidates are the
prefixes of the maximal `.`-run `run`, longest first; `rest` is the text after
`run`.  `g6Loop run rest k` tries the candidate of length `k`, then shorter
ones. -/
def g6Loop (run rest : List Char) : Nat → Option TailMatch
  | 0 => tryTail (run.take 0) (run.drop 0 ++ rest)
  | k + 1 =>
    match tryTail (run.take (k + 1)) (run.drop (k + 1) ++ rest) with
    | some m => some m
    | none => g6Loop run rest k

/-- Match `(.*)(?:\n([^]*?))?(?:\x00)` at the start of `s` (the part of the
commit regex after the fifth `\n`). -/
def g6Match (s : List Char) : Option TailMatch :=
  let run := s.takeWhile dotMatch
  g6Loop run (s.drop run.length) run.length

/-- Stage 3 of `commitRegex`: the four `(.*)\n` groups (author name, author
email, author date, commit date) followed by the group-6 tail, starting right
after the `\n` that follows the hash. -/
def matchLines (h s1 : List Char) : Option (RawMatch × List Char) :=
  match lineField s1 with
  | some (an, s2) =>
    match lineField s2 with
    | some (ae, s3) =>
      match lineField s3 with
      | some (ad, s4) =>
        match lineField s4 with
        | some (cd, s5) =>
          match g6Match s5 with
          | some tm =>
            some ({ hash := h, authorName := an, authorEmail := ae, authorDate := ad,
                    commitDate := cd, parents := tm.parents, message := tm.message },
                  tm.rest)
          | none => none
        | none => none
      | none => none
    | none => none
  | none => none

/-- Try to match `commitRegex` at the start of `s`: 40 lower-case hex digits,
a `\n`, then the line groups and tail.  Returns the capture groups and the
text after the match. -/
def matchAt (s : List Char) : Option (RawMatch × List Char) :=
  if (s.take 40).length = 40 && (s.take 40).all isHexLower then
    match s.drop 40 with
    | c :: s1 => if c = Char.ofNat 10 then matchLines (s.take 40) s1 else none
    | [] => none
  else none

/-- `commitRegex.exec`: the leftmost match at or after the current position
(the regex has the `g` flag, so the scan resumes where the last match ended). -/
def findMatch : List Char → Option (RawMatch × List Char)
  | [] => none
  | c :: t =>
    match matchAt (c :: t) with
    | some r => some r
    | none => findMatch t

/-- JS `'a b'.split(' ')` guarded by truthiness: `parents ? parents.split(' ') : []`
in `parseGitCommits` - the empty string yields the empty list. -/
def jsSplitSpace (p : List Char) : List (List Char) :=
  if p = [] then [] else splitChar (Char.ofNat 32) p

/-- Strip a single trailing `\n` from the message, as the loop body of
`parseGitCommits` does (`message.substr(0, message.length - 1)`). -/
def stripTrailingNL (m : List Char) : List Char :=
  if m.getLast? = some (Char.ofNat 10) then m.dropLast else m

/-- Build the `Commit` pushed for one regex match.  When group 7 did not
participate, `message` is `undefined` and `message[message.length - 1]`
raises a `TypeError` in JS; that is the `none` case. -/
def commitOfMatch (m : RawMatch) : Option Commit :=
  match m.message with
  | none => none
  | some msg =>
    some { hash := m.hash
           message := stripTrailingNL msg
           parents := jsSplitSpace m.parents
           authorDate := m.authorDate
           authorName := m.authorName
           authorEmail := m.authorEmail
           commitDate := m.commitDate }

/-- The `do`/`while` loop of `parseGitCommits`, with explicit fuel.  Every
match consumes at least the 40 hash characters and the sentinel, so fuel
`data.length + 1` never runs out; `Except.error` models the `TypeError`
thrown when a record has no message group. -/
def parseLoop : Nat → List Char → Except Unit (List Commit)
  | 0, _ => .ok []
  | fuel + 1, s =>
    match findMatch s with
    | none => .ok []
    | some (m, rest) =>
      match commitOfMatch m with
      | none => .error ()
      | some c =>
        match parseLoop fuel rest with
        | .ok cs => .ok (c :: cs)
        | .error e => .error e

/-- `parseGitCommits` (src/main.ts): repeatedly `exec` the commit regex
against the data and collect the commits in match order. -/
def parseGitCommits (data : List Char) : Except Unit (List Commit) :=
  parseLoop (data.length + 1) data

/-- Outcome of `Repository.log`: a thrown `GitError`, a thrown parse-time
`TypeError`, or a returned commit list. -/
inductive LogOutcome where
  | threw (e : GitErrorData)
  | parseThrew
  | commits (cs : List Commit)
deriving DecidableEq, Repr

/-- `Repository.log` (src/main.ts), given the subprocess result: `this.run`
goes through `Vsr._exec`, which rejects on any non-zero exit code, so the
`if (result.exitCode) return []` line of `log` only sees `exitCode = 0`. -/
def Repository.log (res : ExecResult) : LogOutcome :=
  match Vsr.execOutcome res ("log").toList with
  | .error e => .threw e
  | .ok r =>
    if r.exitCode ≠ 0 then .commits []
    else
      match parseGitCommits r.stdout with
      | .error _ => .parseThrew
      | .ok cs => .commits cs

/-- A structured commit record for generating well-formed commit-log text:
the seven `--format=%H%n%aN%n%aE%n%at%n%ct%n%P%n%B` fields of one record. -/
structure CommitRecord where
  hash : List Char
  an : List Char
  ae : List Char
  ad : List Char
  cd : List Char
  parents : List Char
  msg : List Char
deriving DecidableEq, Repr

/-- Well-formedness of a commit record: the hash is exactly 40 lower-case hex
digits; the five single-line fields contain no line terminator and no NUL;
the message (which may contain newlines) contains no NUL. -/
def wfRecord (r : CommitRecord) : Bool :=
  r.hash.length = 40 && r.hash.all isHexLower &&
  r.an.all (fun c => dotMatch c && c != nulChar) &&
  r.ae.all (fun c => dotMatch c && c != nulChar) &&
  r.ad.all (fun c => dotMatch c && c != nulChar) &&
  r.cd.all (fun c => dotMatch c && c != nulChar) &&
  r.parents.all (fun c => dotMatch c && c != nulChar) &&
  r.msg.all (· != nulChar)

/-- Serialize one record exactly as the tool emits it for
`--format=%H%n%aN%n%aE%n%at%n%ct%n%P%n%B` with a `\x00` terminator. -/
def serRecord (r : CommitRecord) : List Char :=
  r.hash ++ Char.ofNat 10 :: r.an ++ Char.ofNat 10 :: r.ae ++ Char.ofNat 10 ::
  r.ad ++ Char.ofNat 10 :: r.cd ++ Char.ofNat 10 :: r.parents ++ Char.ofNat 10 ::
  r.msg ++ [nulChar]

/-- A whole commit log: the concatenation of its sentinel-terminated records. -/
def serLog (rs : List CommitRecord) : List Char :=
  (rs.map serRecord).flatten

/-- The commit that the claim expects for a record: its hash, the message with
a single trailing newline stripped, and the space-split parent field (empty
field giving the empty list). -/
def expectedCommit (r : CommitRecord) : Commit :=
  { hash := r.hash
    message := stripTrailingNL r.msg
    parents := jsSplitSpace r.parents
    authorDate := r.ad
    authorName := r.an
    authorEmail := r.ae
    commitDate := r.cd }

/-- JSON values, for modelling the JS builtin `JSON.parse` used by
`VsrStatusParser.update`. -/
inductive Json where
  | null
  | bool (b : Bool)
  | num (n : Int)
  | str (s : List Char)
  | arr (elems : List Json)
  | obj (members : List (List Char × Json))

/-- Errors raised by `JSON.parse` (a JS `SyntaxError`). -/
inductive JsonErr where
  | unexpectedEnd
  | unexpectedChar (c : Char)
  | badEscape
  | trailing (c : Char)
deriving DecidableEq, Repr

/-- JSON insignificant whitespace. -/
def jsonWs (c : Char) : Bool :=
  c = Char.ofNat 32 || c = Char.ofNat 9 || c = Char.ofNat 10 || c = Char.ofNat 13

/-- The left curly bracket character. -/
def lbrace : Char := Char.ofNat 123

/-- The right curly bracket character. -/
def rbrace : Char := Char.ofNat 125

/-- The double-quote character. -/
def dquote : Char := Char.ofNat 34

/-- Hex digit (either case) with its value. -/
def hexVal (c : Char) : Option Nat :=
  if Char.ofNat 48 ≤ c && c ≤ Char.ofNat 57 then some (c.toNat - 48)
  else if Char.ofNat 97 ≤ c && c ≤ Char.ofNat 102 then some (c.toNat - 87)
  else if Char.ofNat 65 ≤ c && c ≤ Char.ofNat 70 then some (c.toNat - 55)
  else none

/-- Decode a single-character JSON string escape. -/
def jsonEscape (c : Char) : Option Char :=
  if c = dquote then some dquote
  else if c = Char.ofNat 92 then some (Char.ofNat 92)
  else if c = Char.ofNat 47 then some (Char.ofNat 47)
  else if c = Char.ofNat 98 then some (Char.ofNat 8)
  else if c = Char.ofNat 102 then some (Char.ofNat 12)
  else if c = Char.ofNat 110 then some (Char.ofNat 10)
  else if c = Char.ofNat 114 then some (Char.ofNat 13)
  else if c = Char.ofNat 116 then some (Char.ofNat 9)
  else none

/-- Parse a JSON string body (after the opening quote), returning the decoded
characters and the text after the closing quote. -/
def parseJsonString : List Char → Except JsonErr (List Char × List Char)
  | [] => .error .unexpectedEnd
  | c :: t =>
    if c = dquote then .ok ([], t)
    else if c = Char.ofNat 92 then
      match t with
      | [] => .error .unexpectedEnd
      | e :: t2 =>
        if e = Char.ofNat 117 then
          match t2 with
          | h1 :: h2 :: h3 :: h4 :: t3 =>
            match hexVal h1, hexVal h2, hexVal h3, hexVal h4 with
            | some v1, some v2, some v3, some v4 =>
              match parseJsonString t3 with
              | .ok (r, rest) => .ok (Char.ofNat (((v1 * 16 + v2) * 16 + v3) * 16 + v4) :: r, rest)
              | .error err => .error err
            | _, _, _, _ => .error .badEscape
          | _ => .error .badEscape
        else
          match jsonEscape e with
          | some d =>
            match parseJsonString t2 with
            | .ok (r, rest) => .ok (d :: r, rest)
            | .error err => .error err
          | none => .error .badEscape
    else
      match parseJsonString t with
      | .ok (r, rest) => .ok (c :: r, rest)
      | .error err => .error err
termination_by s => s.length
decreasing_by all_goals simp_arith

/-- ASCII decimal digit. -/
def isDigitCh (c : Char) : Bool := Char.ofNat 48 ≤ c && c ≤ Char.ofNat 57

/-- Digits to a natural number (most significant first). -/
def digitsToNat (ds : List Char) : Nat :=
  ds.foldl (fun acc c => acc * 10 + (c.toNat - 48)) 0

/-- Parse a JSON number.  The integer part is kept; a fraction or exponent is
consumed but its value discarded (the source never inspects non-integral
status numbers, and no claim concerns them). -/
def parseJsonNumber (s : List Char) : Except JsonErr (Int × List Char) :=
  let neg := s.take 1 = [Char.ofNat 45]
  let s1 := if neg then s.drop 1 else s
  let ds := s1.takeWhile isDigitCh
  if ds = [] then .error (match s1 with | c :: _ => .unexpectedChar c | [] => .unexpectedEnd)
  else
    let r1 := s1.drop ds.length
    let r2 :=
      if r1.take 1 = [Char.ofNat 46] then
        let fs := (r1.drop 1).takeWhile isDigitCh
        (r1.drop 1).drop fs.length
      else r1
    let r3 :=
      if r2.take 1 = [Char.ofNat 101] || r2.take 1 = [Char.ofNat 69] then
        let r2' := r2.drop 1
        let r2'' := if r2'.take 1 = [Char.ofNat 43] || r2'.take 1 = [Char.ofNat 45] then r2'.drop 1 else r2'
        r2''.drop ((r2''.takeWhile isDigitCh).length)
      else r2
    .ok (if neg then -(digitsToNat ds : Int) else (digitsToNat ds : Int), r3)

mutual

/-- Parse one JSON value (fuel bounds the recursion depth; each nested call
follows at least one consumed character, so `input.length + 1` suffices). -/
def parseJsonValue : Nat → List Char → Except JsonErr (Json × List Char)
  | 0, _ => .error .unexpectedEnd
  | fuel + 1, s =>
    match s.dropWhile jsonWs with
    | [] => .error .unexpectedEnd
    | c :: t =>
      if c = lbrace then
        match t.dropWhile jsonWs with
        | c2 :: t2 =>
          if c2 = rbrace then .ok (.obj [], t2)
          else parseJsonMembers fuel (c2 :: t2)
        | [] => .error .unexpectedEnd
      else if c = Char.ofNat 91 then
        match t.dropWhile jsonWs with
        | c2 :: t2 =>
          if c2 = Char.ofNat 93 then .ok (.arr [], t2)
          else parseJsonElems fuel (c2 :: t2)
        | [] => .error .unexpectedEnd
      else if c = dquote then
        match parseJsonString t with
        | .ok (str, rest) => .ok (.str str, rest)
        | .error e => .error e
      else if c = Char.ofNat 116 then
        if ("rue").toList.isPrefixOf t then .ok (.bool true, t.drop 3)
        else .error (.unexpectedChar c)
      else if c = Char.ofNat 102 then
        if ("alse").toList.isPrefixOf t then .ok (.bool false, t.drop 4)
        else .error (.unexpectedChar c)
      else if c = Char.ofNat 110 then
        if ("ull").toList.isPrefixOf t then .ok (.null, t.drop 3)
        else .error (.unexpectedChar c)
      else if c = Char.ofNat 45 || isDigitCh c then
        match parseJsonNumber (c :: t) with
        | .ok (n, rest) => .ok (.num n, rest)
        | .error e => .error e
      else .error (.unexpectedChar c)

/-- Parse the elements of a non-empty JSON array (positioned at the first
element). -/
def parseJsonElems : Nat → List Char → Except JsonErr (Json × List Char)
  | 0, _ => .error .unexpectedEnd
  | fuel + 1, s =>
    match parseJsonValue fuel s with
    | .error e => .error e
    | .ok (v, rest) =>
      match rest.dropWhile jsonWs with
      | [] => .error .unexpectedEnd
      | c :: t =>
        if c = Char.ofNat 44 then
          match parseJsonElems fuel t with
          | .ok (.arr vs, rest2) => .ok (.arr (v :: vs), rest2)
          | .ok _ => .error .unexpectedEnd
          | .error e => .error e
        else if c = Char.ofNat 93 then .ok (.arr [v], t)
        else .error (.unexpectedChar c)

/-- Parse the members of a non-empty JSON object (positioned at the first
key). -/
def parseJsonMembers : Nat → List Char → Except JsonErr (Json × List Char)
  | 0, _ => .error .unexpectedEnd
  | fuel + 1, s =>
    match s.dropWhile jsonWs with
    | [] => .error .unexpectedEnd
    | c :: t =>
      if c = dquote then
        match parseJsonString t with
        | .error e => .error e
        | .ok (key, rest) =>
          match rest.dropWhile jsonWs with
          | [] => .error .unexpectedEnd
          | c2 :: t2 =>
            if c2 = Char.ofNat 58 then
              match parseJsonValue fuel t2 with
              | .error e => .error e
              | .ok (v, rest2) =>
                match rest2.dropWhile jsonWs with
                | [] => .error .unexpectedEnd
                | c3 :: t3 =>
                  if c3 = Char.ofNat 44 then
                    match parseJsonMembers fuel t3 with
                    | .ok (.obj ms, rest3) => .ok (.obj ((key, v) :: ms), rest3)
                    | .ok _ => .error .unexpectedEnd
                    | .error e => .error e
                  else if c3 = rbrace then .ok (.obj [(key, v)], t3)
                  else .error (.unexpectedChar c3)
            else .error (.unexpectedChar c2)
      else .error (.unexpectedChar c)

end

/-- The JS builtin `JSON.parse`: one value surrounded by optional whitespace;
the empty string raises a `SyntaxError` (`unexpectedEnd`). -/
def JSONparse (raw : List Char) : Except JsonErr Json :=
  match parseJsonValue (raw.length + 1) raw with
  | .error e => .error e
  | .ok (v, rest) =>
    match rest.dropWhile jsonWs with
    | [] => .ok v
    | c :: _ => .error (.trailing c)

/-- Property lookup on a parsed JSON object (`input.Field` in JS). -/
def lookupField (fs : List (List Char × Json)) (k : List Char) : Option Json :=
  match fs.find? (fun m => m.1 == k) with
  | some m => some m.2
  | none => none

/-- `JsonHead` (src/main.ts). -/
structure JsonHead where
  ID : String := ""
  Name : String := ""
  Timestamp : String := ""
  Author : String := ""
deriving DecidableEq, Repr

/-- `JsonBranch` (src/main.ts). -/
structure JsonBranch where
  Name : String := ""
  Revision : Int := 0
  IsTerminus : Bool := false
  Heads : List JsonHead := []
deriving DecidableEq, Repr

/-- `JsonResource` (src/main.ts): one per-file resource of the status JSON. -/
structure JsonResource where
  Staged : Bool := false
  Status : String := ""
  StatusCode : String := ""
  ReadOnly : Bool := false
  CurrentName : String := ""
  CanonicalName : String := ""
  IsFile : Bool := false
  IsDirectory : Bool := false
  Hash : String := ""
  Length : Int := 0
  Removed : Bool := false
deriving DecidableEq, Repr

/-- `JsonStatus` (src/main.ts): the whole status document. -/
structure JsonStatus where
  Version : String := ""
  Branch : JsonBranch := {}
  Resources : List JsonResource := []
deriving DecidableEq, Repr

/-- `JsonHead.deserialize`.  The JS version assigns `input.X` dynamically; a
document whose fields are missing or of the wrong type is modelled as a
failed deserialization (`none`) - no claim exercises mistyped documents. -/
def JsonHead.deserialize (j : Json) : Option JsonHead :=
  match j with
  | .obj fs =>
    match lookupField fs ("ID").toList, lookupField fs ("Name").toList,
          lookupField fs ("Timestamp").toList, lookupField fs ("Author").toList with
    | some (.str i), some (.str n), some (.str ts), some (.str a) =>
      some { ID := String.mk i, Name := String.mk n, Timestamp := String.mk ts, Author := String.mk a }
    | _, _, _, _ => none
  | _ => none

/-- `JsonBranch.deserialize` (iterating `input.Heads`). -/
def JsonBranch.deserialize (j : Json) : Option JsonBranch :=
  match j with
  | .obj fs =>
    match lookupField fs ("Name").toList, lookupField fs ("Revision").toList,
          lookupField fs ("IsTerminus").toList, lookupField fs ("Heads").toList with
    | some (.str n), some (.num rv), some (.bool it), some (.arr hs) =>
      match hs.mapM JsonHead.deserialize with
      | some heads => some { Name := String.mk n, Revision := rv, IsTerminus := it, Heads := heads }
      | none => none
    | _, _, _, _ => none
  | _ => none

/-- `JsonResource.deserialize`. -/
def JsonResource.deserialize (j : Json) : Option JsonResource :=
  match j with
  | .obj fs =>
    match lookupField fs ("Staged").toList, lookupField fs ("Status").toList,
          lookupField fs ("StatusCode").toList, lookupField fs ("ReadOnly").toList with
    | some (.bool stg), some (.str st), some (.str sc), some (.bool ro) =>
      match lookupField fs ("CurrentName").toList, lookupField fs ("CanonicalName").toList,
            lookupField fs ("IsFile").toList, lookupField fs ("IsDirectory").toList with
      | some (.str cn), some (.str can), some (.bool isf), some (.bool isd) =>
        match lookupField fs ("Hash").toList, lookupField fs ("Length").toList,
              lookupField fs ("Removed").toList with
        | some (.str h), some (.num len), some (.bool rm) =>
          some { Staged := stg, Status := String.mk st, StatusCode := String.mk sc,
                 ReadOnly := ro, CurrentName := String.mk cn, CanonicalName := String.mk can,
                 IsFile := isf, IsDirectory := isd, Hash := String.mk h, Length := len,
                 Removed := rm }
        | _, _, _ => none
      | _, _, _, _ => none
    | _, _, _, _ => none
  | _ => none

/-- `JsonStatus.deserialize`. -/
def JsonStatus.deserialize (j : Json) : Option JsonStatus :=
  match j with
  | .obj fs =>
    match lookupField fs ("Version").toList, lookupField fs ("Branch").toList,
          lookupField fs ("Resources").toList with
    | some (.str v), some br, some (.arr res) =>
      match JsonBranch.deserialize br, res.mapM JsonResource.deserialize with
      | some branch, some resources =>
        some { Version := String.mk v, Branch := branch, Resources := resources }
      | _, _ => none
    | _, _, _ => none
  | _ => none

/-- `IFileStatus` (src/main.ts): index code `x`, work-tree code `y`, path and
rename target. -/
structure IFileStatus where
  x : String
  y : String
  path : String
  rename : String
deriving DecidableEq, Repr

/-- `JsonResource.toFileStatus` (src/main.ts): the fixed mapping from
`(Staged, Status)` to the two status-code characters, with the rename target
set when the current name differs from the canonical name. -/
def JsonResource.toFileStatus (r : JsonResource) : IFileStatus :=
  let xy : String × String :=
    if r.Staged then
      if r.Status = "modified" then ("M", "")
      else if r.Status = "added" then ("A", "")
      else if r.Status = "deleted" then ("D", "")
      else if r.Status = "copied" then ("C", "")
      else if r.Status = "renamed" then ("R", "")
      else ("", "")
    else
      if r.Status = "changed" then ("", "M")
      else if r.Status = "added" then ("", "A")
      else if r.Status = "deleted" then ("", "D")
      else if r.Status = "copied" then ("", "C")
      else if r.Status = "unversioned" then ("?", "?")
      else if r.Status = "ignored" then ("!", "!")
      else ("", "")
  { x := xy.1
    y := xy.2
    rename := if r.CurrentName ≠ r.CanonicalName then r.CurrentName else ""
    path := r.CurrentName }

/-- Errors thrown out of `VsrStatusParser.update`: the `JSON.parse`
`SyntaxError`, or the `TypeError` raised while `deserialize` walks a document
of the wrong shape. -/
inductive UpdateErr where
  | jsonError (e : JsonErr)
  | typeError
deriving DecidableEq, Repr

/-- The state of a `VsrStatusParser` (src/main.ts). -/
structure VsrStatusParser where
  lastRaw : String := ""
  fileStatus : List IFileStatus := []
  repoStatus : JsonStatus := {}
deriving DecidableEq, Repr

/-- A freshly constructed `VsrStatusParser`. -/
def VsrStatusParser.init : VsrStatusParser := {}

/-- `VsrStatusParser.update` (src/main.ts): `JSON.parse` the raw text (an
exception propagates - the empty string is not valid JSON), deserialize it,
and append one `IFileStatus` per resource to `fileStatus`. -/
def VsrStatusParser.update (p : VsrStatusParser) (raw : List Char) :
    Except UpdateErr VsrStatusParser :=
  match JSONparse raw with
  | .error e => .error (.jsonError e)
  | .ok j =>
    match JsonStatus.deserialize j with
    | none => .error .typeError
    | some st =>
      .ok { p with repoStatus := st
                   fileStatus := p.fileStatus ++ st.Resources.map JsonResource.toFileStatus }

/-- The `vsrStatus` getter (src/main.ts):
`get vsrStatus(): JsonStatus { return this.vsrStatus; }` - the body reads the
very property it defines, so every unfolding re-enters the getter.  The fuel
argument counts unfoldings: no amount of fuel produces a value. -/
def VsrStatusParser.vsrStatusGet (p : VsrStatusParser) : Nat → Option JsonStatus
  | 0 => none
  | fuel + 1 => VsrStatusParser.vsrStatusGet p fuel

/-- The `{ mode, object, size }` record `Repository.getObjectDetails` promises. -/
structure ObjDetails where
  mode : String
  object : String
  size : Int
deriving DecidableEq, Repr

/-- Outcome of `Repository.getObjectDetails`. -/
inductive GetObjectDetailsResult where
  | threwUpdate (e : UpdateErr)
  | threwGit (e : GitErrorData)
  | diverged
  | returned (d : ObjDetails)
deriving DecidableEq, Repr

/-- `Repository.getObjectDetails` (src/main.ts), parameterized by the outcome
of `parser.update(stdout)` (a failed `run` never reaches this code) and by the
getter fuel: on a successful parse with no file status it throws the
`UnknownPath` `GitError`; otherwise it reads `parser.vsrStatus`, which never
yields a value (`diverged`). -/
def Repository.getObjectDetails (upd : Except UpdateErr VsrStatusParser) (fuel : Nat) :
    GetObjectDetailsResult :=
  match upd with
  | .error e => .threwUpdate e
  | .ok p =>
    if p.fileStatus.length = 0 then
      .threwGit { message := ("Path not known by vsr").toList, gitErrorCode := some .UnknownPath }
    else
      match VsrStatusParser.vsrStatusGet p fuel with
      | none => .diverged
      | some parsed =>
        match parsed.Resources.head? with
        | some r0 => .returned { mode := "100644", object := r0.Hash, size := r0.Length }
        | none => .threwUpdate .typeError

/-- Is the outcome a successfully returned details record? -/
def GetObjectDetailsResult.isReturned : GetObjectDetailsResult → Bool
  | .returned _ => true
  | _ => false

/-- `LsTreeElement` (src/main.ts). -/
structure LsTreeElement where
  mode : List Char
  type : List Char
  object : List Char
  size : List Char
  file : List Char
deriving DecidableEq, Repr

/-- `LsFilesElement` (src/main.ts). -/
structure LsFilesElement where
  mode : List Char
  object : List Char
  stage : List Char
  file : List Char
deriving DecidableEq, Repr

/-- One `(\S+)\s+` unit of the listing regexes: a non-empty maximal run of
non-whitespace followed by at least one whitespace character. -/
def fieldSep (l : List Char) : Option (List Char × List Char) :=
  let f := l.takeWhile (fun c => !(jsWs c))
  if f = [] then none
  else
    let r := (l.drop f.length)
    let w := r.takeWhile jsWs
    if w = [] then none else some (f, r.drop w.length)

/-- Match `/^(\S+)\s+(\S+)\s+(\S+)\s+(\S+)\s+(.*)$/` against one line. -/
def lsTreeLine (l : List Char) : Option LsTreeElement :=
  match fieldSep l with
  | some (mode, r1) =>
    match fieldSep r1 with
    | some (ty, r2) =>
      match fieldSep r2 with
      | some (obj, r3) =>
        match fieldSep r3 with
        | some (sz, r4) =>
          if r4.all dotMatch then
            some { mode := mode, type := ty, object := obj, size := sz, file := r4 }
          else none
        | none => none
      | none => none
    | none => none
  | none => none

/-- Match `/^(\S+)\s+(\S+)\s+(\S+)\s+(.*)$/` against one line. -/
def lsFilesLine (l : List Char) : Option LsFilesElement :=
  match fieldSep l with
  | some (mode, r1) =>
    match fieldSep r1 with
    | some (obj, r2) =>
      match fieldSep r2 with
      | some (stg, r3) =>
        if r3.all dotMatch then
          some { mode := mode, object := obj, stage := stg, file := r3 }
        else none
      | none => none
    | none => none
  | none => none

/-- `parseLsTree` (src/main.ts): split on `\n`, drop empty lines, keep the
lines matching the five-column regex. -/
def parseLsTree (raw : List Char) : List LsTreeElement :=
  (((splitChar (Char.ofNat 10) raw).filter (fun l => !l.isEmpty)).map lsTreeLine).reduceOption

/-- `parseLsFiles` (src/main.ts): split on `\n`, drop empty lines, keep the
lines matching the four-column regex. -/
def parseLsFiles (raw : List Char) : List LsFilesElement :=
  (((splitChar (Char.ofNat 10) raw).filter (fun l => !l.isEmpty)).map lsFilesLine).reduceOption

/-- The `Submodule` interface of src/main.ts (named `VsrSubmodule` here only
because Mathlib already declares a `Submodule`). -/
structure VsrSubmodule where
  name : List Char
  path : List Char
  url : List Char
deriving DecidableEq, Repr

/-- The `Partial<VsrSubmodule>` accumulator of `parseGitmodules`: fields are set
one at a time, and a field may be set to the empty string (which keeps the
record incomplete, since JS truthiness rejects `''`). -/
structure PartialSubmodule where
  name : Option (List Char) := none
  path : Option (List Char) := none
  url : Option (List Char) := none
deriving DecidableEq, Repr

/-- The `if (submodule.name && submodule.path && submodule.url)` flush: push
the accumulator when all three fields are set and non-empty (truthy). -/
def flushSubmodule (cur : PartialSubmodule) (acc : List VsrSubmodule) : List VsrSubmodule :=
  match cur.name, cur.path, cur.url with
  | some n, some p, some u =>
    if n.isEmpty || p.isEmpty || u.isEmpty then acc else acc ++ [{ name := n, path := p, url := u }]
  | _, _, _ => acc

/-- Match `/^\s*\[submodule "([^"]+)"\]\s*$/` against one line, returning the
captured (non-empty) name. -/
def sectionName (l : List Char) : Option (List Char) :=
  let l1 := l.dropWhile jsWs
  if ("[submodule ").toList.isPrefixOf l1 then
    match l1.drop 11 with
    | q :: r0 =>
      if q = dquote then
        let nm := r0.takeWhile (fun c => !(c = dquote))
        if nm = [] then none
        else
          match r0.drop nm.length with
          | c1 :: c2 :: tail =>
            if c1 = dquote && c2 = Char.ofNat 93 && tail.all jsWs then some nm else none
          | _ => none
      else none
    | [] => none
  else none

/-- Match `/^\s*(\w+)\s+=\s+(.*)$/` against one line, returning key and value. -/
def propertyKV (l : List Char) : Option (List Char × List Char) :=
  let l1 := l.dropWhile jsWs
  let k := l1.takeWhile isWordChar
  if k = [] then none
  else
    let r := l1.drop k.length
    let w1 := r.takeWhile jsWs
    if w1 = [] then none
    else
      match r.drop w1.length with
      | e :: r2 =>
        if e = Char.ofNat 61 then
          let w2 := r2.takeWhile jsWs
          if w2 = [] then none
          else
            let v := r2.drop w2.length
            if v.all dotMatch then some (k, v) else none
        else none
      | [] => none

/-- The mutable state of `parseGitmodules`: the result list and the current
`Partial<VsrSubmodule>`. -/
structure GmState where
  result : List VsrSubmodule
  cur : PartialSubmodule
deriving DecidableEq, Repr

/-- `parseLine` inside `parseGitmodules`: a section header flushes the
previous accumulator and starts a new one; a `path`/`url` property line sets
the corresponding field; anything else is ignored. -/
def gmParseLine (st : GmState) (line : List Char) : GmState :=
  match sectionName line with
  | some nm => { result := flushSubmodule st.cur st.result, cur := { name := some nm } }
  | none =>
    match propertyKV line with
    | some (k, v) =>
      if k = ("path").toList then { st with cur := { st.cur with path := some v } }
      else if k = ("url").toList then { st with cur := { st.cur with url := some v } }
      else st
    | none => st

/-- `parseGitmodules` (src/main.ts): run the line machine over the `/\r?\n/`
segments and flush the final pending record. -/
def parseGitmodules (raw : List Char) : List VsrSubmodule :=
  let st := (splitRN raw).foldl gmParseLine { result := [], cur := {} }
  flushSubmodule st.cur st.result

/-- One generated `.gitmodules` block: a name for the section header and the
`path`/`url` property values. -/
structure GmBlock where
  name : List Char
  path : List Char
  url : List Char
deriving DecidableEq, Repr

/-- Well-formedness of a generated block: the name is non-empty, contains no
double quote and no line terminator; path and url are non-empty, contain no
line terminator, and do not start with whitespace (so the regex captures them
exactly). -/
def wfGmBlock (b : GmBlock) : Bool :=
  !b.name.isEmpty && b.name.all (fun c => dotMatch c && !(c = dquote)) &&
  !b.path.isEmpty && b.path.all dotMatch && !(jsWs (b.path.headD (Char.ofNat 97))) &&
  !b.url.isEmpty && b.url.all dotMatch && !(jsWs (b.url.headD (Char.ofNat 97)))

/-- The header line `[submodule "<name>"]` of a block. -/
def gmHeaderLine (b : GmBlock) : List Char :=
  ("[submodule ").toList ++ dquote :: b.name ++ [dquote, Char.ofNat 93]

/-- The `path = <path>` line of a block. -/
def gmPathLine (b : GmBlock) : List Char :=
  Char.ofNat 9 :: ("path = ").toList ++ b.path

/-- The `url = <url>` line of a block. -/
def gmUrlLine (b : GmBlock) : List Char :=
  Char.ofNat 9 :: ("url = ").toList ++ b.url

/-- Serialize a list of blocks, each preceded by a chosen number of blank
lines and with every line `\n`-terminated. -/
def serGm (bs : List (Nat × GmBlock)) : List Char :=
  (bs.map (fun gb =>
    List.replicate gb.1 (Char.ofNat 10) ++
    gmHeaderLine gb.2 ++ Char.ofNat 10 ::
    gmPathLine gb.2 ++ Char.ofNat 10 ::
    gmUrlLine gb.2 ++ [Char.ofNat 10])).flatten

/-- The submodule record a block should parse to. -/
def gmExpected (b : GmBlock) : VsrSubmodule :=
  { name := b.name, path := b.path, url := b.url }

/-- The members of the `Status` enum (`api/vsr.d.ts`, outside `src/`) that
`Repository.diffFiles` uses; the spec's Change-status enum
(Modified, Added, Deleted, Renamed, Untracked). -/
inductive ChangeStatus where
  | UNTRACKED
  | MODIFIED
  | INDEX_ADDED
  | DELETED
  | INDEX_RENAMED
deriving DecidableEq, Repr

/-- A `vscode.Uri` produced by `URI.file`, reduced to its filesystem path. -/
structure FileUri where
  fsPath : List Char
deriving DecidableEq, Repr

/-- `path.isAbsolute` (POSIX rule; the Windows drive-letter rule is not
modelled, no claim depends on it). -/
def pathIsAbsolute (p : List Char) : Bool :=
  match p with
  | c :: _ => c = Char.ofNat 47
  | [] => false

/-- `URI.file(path.isAbsolute(p) ? p : path.join(root, p))`.  `path.join` is
modelled as separator concatenation (its `.`/`..` normalization is not
observable in any claim). -/
def mkFileUri (root p : List Char) : FileUri :=
  { fsPath := if pathIsAbsolute p then p else root ++ Char.ofNat 47 :: p }

/-- `Change` (api/vsr.d.ts, outside `src/`), as `Repository.diffFiles`
constructs it. -/
structure Change where
  uri : FileUri
  originalUri : FileUri
  renameUri : FileUri
  status : ChangeStatus
deriving DecidableEq, Repr

/-- The non-rename push of `diffFiles`:
`{ status, originalUri, uri: originalUri, renameUri: originalUri }`. -/
def mkSimpleChange (root rp : List Char) (st : ChangeStatus) : Change :=
  let u := mkFileUri root rp
  { uri := u, originalUri := u, renameUri := u, status := st }

/-- The rename push of `diffFiles`:
`{ uri, renameUri: uri, originalUri, status: INDEX_RENAMED }`. -/
def mkRenameChange (root rp np : List Char) : Change :=
  { uri := mkFileUri root np
    originalUri := mkFileUri root rp
    renameUri := mkFileUri root np
    status := .INDEX_RENAMED }

/-- The `while (index < entries.length - 1)` loop of `Repository.diffFiles`
over the remaining NUL-separated entries: a pair `(change, resourcePath)` per
record, one extra entry for a rename; an empty entry or an unrecognized
leading status letter ends the loop; a rename with a missing or empty new
path falls through the switch and pushes an UNTRACKED change. -/
def diffGo (root : List Char) : List (List Char) → List Change
  | change :: resourcePath :: rest =>
    if change.isEmpty || resourcePath.isEmpty then []
    else
      match change with
      | [] => []
      | c :: _ =>
        if c = Char.ofNat 77 then mkSimpleChange root resourcePath .MODIFIED :: diffGo root rest
        else if c = Char.ofNat 65 then mkSimpleChange root resourcePath .INDEX_ADDED :: diffGo root rest
        else if c = Char.ofNat 68 then mkSimpleChange root resourcePath .DELETED :: diffGo root rest
        else if c = Char.ofNat 82 then
          match rest with
          | [] => [mkSimpleChange root resourcePath .UNTRACKED]
          | newPath :: rest2 =>
            if newPath.isEmpty then mkSimpleChange root resourcePath .UNTRACKED :: diffGo root rest2
            else mkRenameChange root resourcePath newPath :: diffGo root rest2
        else []
  | _ => []

/-- The parsing part of `Repository.diffFiles` (src/main.ts): split the
subprocess stdout on NUL bytes and run the entry loop.  It is a total
function - no input makes it raise. -/
def diffFilesParse (root stdout : List Char) : List Change :=
  diffGo root (splitChar nulChar stdout)

/-- A structured name-status record for generating diff output: a simple
(M/A/D) record with one path, or a rename (R...) record with two. -/
inductive NsRec where
  | simple (status : List Char) (path : List Char)
  | ren (status : List Char) (path : List Char) (newPath : List Char)
deriving DecidableEq, Repr

/-- Fields contain no NUL; the status field is non-empty and starts with its
advertised letter (M, A or D for `simple`; R for `ren`, e.g. `R100`); paths
are non-empty. -/
def wfNsRec : NsRec → Bool
  | .simple st p =>
    (st.head? = some (Char.ofNat 77) || st.head? = some (Char.ofNat 65) ||
     st.head? = some (Char.ofNat 68)) &&
    st.all (· != nulChar) && !p.isEmpty && p.all (· != nulChar)
  | .ren st p np =>
    st.head? = some (Char.ofNat 82) &&
    st.all (· != nulChar) && !p.isEmpty && p.all (· != nulChar) &&
    !np.isEmpty && np.all (· != nulChar)

/-- Serialize one record as the tool emits it: each field NUL-terminated. -/
def serNsRec : NsRec → List Char
  | .simple st p => st ++ nulChar :: p ++ [nulChar]
  | .ren st p np => st ++ nulChar :: p ++ nulChar :: np ++ [nulChar]

/-- A whole name-status stream: the records followed by arbitrary trailing
junk. -/
def serNs (rs : List NsRec) (junk : List Char) : List Char :=
  (rs.map serNsRec).flatten ++ junk

/-- The trailing junk is empty, or its first entry does not start with a
recognized status letter (it may even start with a NUL). -/
def junkOk (junk : List Char) : Bool :=
  match junk with
  | [] => true
  | c :: _ =>
    !(c = Char.ofNat 77 || c = Char.ofNat 65 || c = Char.ofNat 68 || c = Char.ofNat 82)

/-- The change each record should parse to. -/
def expectedChange (root : List Char) : NsRec → Change
  | .simple st p =>
    mkSimpleChange root p
      (match st with
       | c :: _ =>
         if c = Char.ofNat 77 then .MODIFIED
         else if c = Char.ofNat 65 then .INDEX_ADDED
         else .DELETED
       | [] => .UNTRACKED)
  | .ren _ p np => mkRenameChange root p np

/-- The environment of `Repository.handleCommitError`'s identity checks: the
outcomes of `run(['config', '--get-all', 'user.name'])` and of the same query
for `user.email` (each rejects with a `GitError` exactly when the subprocess
exits non-zero). -/
structure IdentityEnv where
  userName : Except GitErrorData (List Char)
  userEmail : Except GitErrorData (List Char)
deriving Repr

/-- The phrase tested by `handleCommitError`:
`/not possible because you have unmerged files/`. -/
def unmergedPhrase : List Char :=
  ("not possible because you have unmerged files").toList

/-- `Repository.handleCommitError` (src/main.ts).  Returns the error finally
thrown together with flags recording whether the `user.name` and `user.email`
configuration queries were performed.  When stderr matches the unmerged-files
phrase the error is promoted to `UnmergedChanges` and neither query runs;
otherwise a failing query's error is promoted to the corresponding
configuration-missing code, and if both succeed the original error is
rethrown. -/
def Repository.handleCommitError (commitErr : GitErrorData) (env : IdentityEnv) :
    GitErrorData × Bool × Bool :=
  if containsSub unmergedPhrase (commitErr.stderr.getD []) then
    ({ commitErr with gitErrorCode := some .UnmergedChanges }, false, false)
  else
    match env.userName with
    | .error e => ({ e with gitErrorCode := some .NoUserNameConfigured }, true, false)
    | .ok _ =>
      match env.userEmail with
      | .error e => ({ e with gitErrorCode := some .NoUserEmailConfigured }, true, true)
      | .ok _ => (commitErr, true, true)

/-- `Repository.commit` (src/main.ts), given the outcome of
`run(['commit', '-m', message])`: on success nothing more happens; on failure
`handleCommitError` decides the thrown error.  The two Booleans record which
identity queries ran. -/
def Repository.commit (runOutcome : Except GitErrorData Unit) (env : IdentityEnv) :
    Except GitErrorData Unit × Bool × Bool :=
  match runOutcome with
  | .ok _ => (.ok (), false, false)
  | .error e =>
    match Repository.handleCommitError e env with
    | (e2, n, m) => (.error e2, n, m)

/-- The pattern `error: failed to push some refs to` of `Repository.push`'s
`/^error: failed to push some refs to\b/m` test. -/
def pushRejPat : List Char := ("error: failed to push some refs to").toList

/-- The `\b` after `to`: end of input or a non-word character. -/
def wordBoundaryAfter (s : List Char) : Bool :=
  match s with
  | [] => true
  | c :: _ => !(isWordChar c)

/-- Does `error: failed to push some refs to\b` match at the start of `s`? -/
def pushRejAt (s : List Char) : Bool :=
  pushRejPat.isPrefixOf s && wordBoundaryAfter (s.drop pushRejPat.length)

/-- `^` positions with the `m` flag other than the string start: just after
each line terminator. -/
def mAnchorScan (p : List Char → Bool) : List Char → Bool
  | [] => false
  | c :: t => (isLineTerm c && p t) || mAnchorScan p t

/-- `/^error: failed to push some refs to\b/m.test(stderr)`. -/
def testPushRejected (s : List Char) : Bool :=
  pushRejAt s || mAnchorScan pushRejAt s

/-- `/^fatal: The current branch .* has no upstream branch/` (no `m` flag:
anchored at the very start). -/
def testNoUpstream (s : List Char) : Bool :=
  ("fatal: The current branch ").toList.isPrefixOf s &&
  gapThen (" has no upstream branch").toList (s.drop 26)

/-- The catch-block of `Repository.push` (src/main.ts): the verb-specific
error refinement applied to a `GitError` before it is rethrown. -/
def pushRefine (e : GitErrorData) : GitErrorData :=
  if testPushRejected (e.stderr.getD []) then
    { e with gitErrorCode := some .PushRejected }
  else if containsSub ("Could not read from remote repository").toList (e.stderr.getD []) then
    { e with gitErrorCode := some .RemoteConnectionError }
  else if testNoUpstream (e.stderr.getD []) then
    { e with gitErrorCode := some .NoUpstreamBranch }
  else e

/-- The concrete stderr text of the push-rejected scenario:
`error: failed to push some refs to 'origin'`. -/
def pushScenarioStderr : List Char :=
  ("error: failed to push some refs to ").toList ++ apos :: ("origin").toList ++ [apos]

/-- The capture groups the commit regex produces for a well-formed record. -/
def rawOf (r : CommitRecord) : RawMatch :=
  { hash := r.hash, authorName := r.an, authorEmail := r.ae, authorDate := r.ad,
    commitDate := r.cd, parents := r.parents, message := some r.msg }

/-- The `/\r?\n/` segments that `serGm bs` splits into, without the final
empty segment: each block contributes its blank lines and its three lines. -/
def gmLinesOf (bs : List (Nat × GmBlock)) : List (List Char) :=
  (bs.map (fun gb =>
    List.replicate gb.1 ([] : List Char) ++
    [gmHeaderLine gb.2, gmPathLine gb.2, gmUrlLine gb.2])).flatten

/-- A demo commit record: no parents, message with a trailing newline. -/
def demoRec1 : CommitRecord :=
  { hash := List.replicate 40 (Char.ofNat 97)
    an := ("Alice").toList
    ae := ("alice@example.com").toList
    ad := ("1600000000").toList
    cd := ("1600000100").toList
    parents := []
    msg := ("hello").toList ++ [Char.ofNat 10] }

/-- A demo commit record: two parents, embedded newline in the message. -/
def demoRec2 : CommitRecord :=
  { hash := List.replicate 40 (Char.ofNat 98)
    an := ("Bob").toList
    ae := ("bob@example.com").toList
    ad := ("1600000200").toList
    cd := ("1600000300").toList
    parents := ("dead beef").toList
    msg := ("line1").toList ++ Char.ofNat 10 :: ("line2").toList }

/-- Two demo `.gitmodules` blocks with two blank lines between them. -/
def demoGm : List (Nat × GmBlock) :=
  [(0, { name := ("one").toList, path := ("libs/one").toList, url := ("vsr://h/one").toList }),
   (2, { name := ("two").toList, path := ("libs/two").toList, url := ("vsr://h/two").toList })]

/-- Demo name-status records: a modification, a rename, a deletion. -/
def demoNs : List NsRec :=
  [.simple (("M").toList) (("a.txt").toList),
   .ren (("R100").toList) (("old.txt").toList) (("new.txt").toList),
   .simple (("D").toList) (("gone.bin").toList)]

/-- Demo trailing junk whose first entry starts with an unrecognized letter. -/
def demoJunk : List Char := ("Z").toList ++ nulChar :: ("x").toList

/-- `takeWhile` of a satisfying block followed by a failing character stops
exactly at the block. -/
theorem takeWhile_append_cons (p : Char → Bool) (a : List Char) (c : Char) (b : List Char)
    (ha : a.all p = true) (hc : p c = false) :
    (a ++ c :: b).takeWhile p = a := by
  induction a with
  | nil => simp [List.takeWhile_cons, hc]
  | cons x xs ih =>
    simp only [List.all_cons, Bool.and_eq_true] at ha
    simp [List.takeWhile_cons, ha.1, ih ha.2]

/-- `dropWhile` counterpart of `takeWhile_append_cons`. -/
theorem dropWhile_append_cons (p : Char → Bool) (a : List Char) (c : Char) (b : List Char)
    (ha : a.all p = true) (hc : p c = false) :
    (a ++ c :: b).dropWhile p = c :: b := by
  induction a with
  | nil => simp [List.dropWhile_cons, hc]
  | cons x xs ih =>
    simp only [List.all_cons, Bool.and_eq_true] at ha
    simp [List.dropWhile_cons, ha.1, ih ha.2]

/-- `splitChar` never returns an empty segment list. -/
theorem splitChar_ne_nil (sep : Char) (s : List Char) : splitChar sep s ≠ [] := by
  induction s with
  | nil => simp [splitChar]
  | cons c t ih =>
    simp only [splitChar]
    split
    · simp
    · cases h : splitChar sep t with
      | nil => exact absurd h ih
      | cons hd tl => simp [consHead]

/-- `splitChar` peels off a separator-free field followed by the separator. -/
theorem splitChar_append (sep : Char) (a b : List Char)
    (ha : a.all (fun c => !(c = sep)) = true) :
    splitChar sep (a ++ sep :: b) = a :: splitChar sep b := by
  induction a with
  | nil => simp [splitChar]
  | cons x xs ih =>
    simp only [List.all_cons, Bool.and_eq_true] at ha
    have hx : ¬(x = sep) := by simpa using ha.1
    simp [splitChar, hx, ih ha.2, consHead]

/-- `splitRN` never returns an empty segment list. -/
theorem splitRN_ne_nil (s : List Char) : splitRN s ≠ [] := by
  induction s with
  | nil => simp [splitRN]
  | cons c t ih =>
    cases t with
    | nil =>
      simp only [splitRN]
      split <;> simp
    | cons c2 t2 =>
      simp only [splitRN]
      split
      · simp
      · split
        · simp
        · cases h : splitRN (c2 :: t2) with
          | nil => exact absurd h ih
          | cons hd tl => simp [consHead]

/-- `splitRN` peels off a leading `\n`. -/
theorem splitRN_cons_nl (b : List Char) :
    splitRN (Char.ofNat 10 :: b) = [] :: splitRN b := by
  cases b with
  | nil => simp [splitRN]
  | cons c2 t2 => simp [splitRN]

/-- `splitRN` keeps a head character that is not a line terminator inside the
first segment. -/
theorem splitRN_cons_other (x : Char) (t : List Char)
    (hx13 : ¬(x = Char.ofNat 13)) (hx10 : ¬(x = Char.ofNat 10)) :
    splitRN (x :: t) = consHead x (splitRN t) := by
  cases t with
  | nil => simp [splitRN, hx10, consHead]
  | cons c2 t2 =>
    simp only [splitRN]
    rw [if_neg (by simp [hx13]), if_neg hx10]

/-- `splitRN` peels off a line-terminator-free line followed by `\n`. -/
theorem splitRN_append (a b : List Char) (ha : a.all dotMatch = true) :
    splitRN (a ++ Char.ofNat 10 :: b) = a :: splitRN b := by
  induction a with
  | nil => simpa using splitRN_cons_nl b
  | cons x xs ih =>
    simp only [List.all_cons, Bool.and_eq_true] at ha
    have hx13 : ¬(x = Char.ofNat 13) := by
      intro h
      rw [h] at ha
      exact absurd ha.1 (by decide)
    have hx10 : ¬(x = Char.ofNat 10) := by
      intro h
      rw [h] at ha
      exact absurd ha.1 (by decide)
    rw [List.cons_append, splitRN_cons_other x _ hx13 hx10, ih ha.2]
    rfl

/-- `splitRN` skips a block of blank lines one at a time. -/
theorem splitRN_replicate_nl (g : Nat) (b : List Char) :
    splitRN (List.replicate g (Char.ofNat 10) ++ b) =
      List.replicate g ([] : List Char) ++ splitRN b := by
  induction g with
  | zero => simp
  | succ n ih => simp [List.replicate_succ, splitRN_cons_nl, ih]

/-- C1: the status parser's resource-to-file-status mapping sends
`Staged=true, Status="added"` to index code `A` with an empty work-tree code,
`Staged=false, Status="unversioned"` to `?`/`?`, and
`Staged=false, Status="ignored"` to `!`/`!`, whatever the other fields are. -/
theorem toFileStatus_status_codes :
    ∀ (sc : String) (ro : Bool) (cn can : String) (fl dr : Bool) (hs : String)
      (ln : Int) (rm : Bool),
      ((JsonResource.toFileStatus
          { Staged := true, Status := "added", StatusCode := sc, ReadOnly := ro,
            CurrentName := cn, CanonicalName := can, IsFile := fl, IsDirectory := dr,
            Hash := hs, Length := ln, Removed := rm }).x = "A" ∧
       (JsonResource.toFileStatus
          { Staged := true, Status := "added", StatusCode := sc, ReadOnly := ro,
            CurrentName := cn, CanonicalName := can, IsFile := fl, IsDirectory := dr,
            Hash := hs, Length := ln, Removed := rm }).y = "") ∧
      ((JsonResource.toFileStatus
          { Staged := false, Status := "unversioned", StatusCode := sc, ReadOnly := ro,
            CurrentName := cn, CanonicalName := can, IsFile := fl, IsDirectory := dr,
            Hash := hs, Length := ln, Removed := rm }).x = "?" ∧
       (JsonResource.toFileStatus
          { Staged := false, Status := "unversioned", StatusCode := sc, ReadOnly := ro,
            CurrentName := cn, CanonicalName := can, IsFile := fl, IsDirectory := dr,
            Hash := hs, Length := ln, Removed := rm }).y = "?") ∧
      ((JsonResource.toFileStatus
          { Staged := false, Status := "ignored", StatusCode := sc, ReadOnly := ro,
            CurrentName := cn, CanonicalName := can, IsFile := fl, IsDirectory := dr,
            Hash := hs, Length := ln, Removed := rm }).x = "!" ∧
       (JsonResource.toFileStatus
          { Staged := false, Status := "ignored", StatusCode := sc, ReadOnly := ro,
            CurrentName := cn, CanonicalName := can, IsFile := fl, IsDirectory := dr,
            Hash := hs, Length := ln, Removed := rm }).y = "!") := by
  intro sc ro cn can fl dr hs ln rm
  refine ⟨⟨rfl, rfl⟩, ⟨rfl, rfl⟩, rfl, rfl⟩

/-- C3: `Repository.log` never returns the empty "no data" list on a non-zero
subprocess exit: `Vsr._exec` rejects first with a classified `GitError`, so
the `if (result.exitCode) return []` branch of `log` is unreachable and the
error propagates to the caller. -/
theorem log_nonzero_exit_throws (res : ExecResult) (h : res.exitCode ≠ 0) :
    Repository.log res = .threw (mkExecFailure res (("log").toList)) := by
  unfold Repository.log Vsr.execOutcome
  rw [if_pos h]

/-- Witness for `log_nonzero_exit_throws`: an empty repository's `log`
subprocess exits with code 1 and empty output; the operation throws the
`GitError` instead of returning the empty commit list. -/
theorem log_nonzero_exit_throws_witness :
    (1 : Int) ≠ 0 ∧
    Repository.log { exitCode := 1, stdout := [], stderr := [] } =
      .threw (mkExecFailure { exitCode := 1, stdout := [], stderr := [] } (("log").toList)) :=
  ⟨by decide, log_nonzero_exit_throws { exitCode := 1, stdout := [], stderr := [] } (by decide)⟩

/-- C4 counterexample: on the stderr text
`error: failed to push some refs to 'origin'` the global classifier
`getGitErrorCode` returns `none`, not `PushRejected` - none of its rules
mention push rejection. -/
theorem classifier_push_refs_none :
    getGitErrorCode pushScenarioStderr = none := by decide

/-- C4 (amended): the global classifier returns `none` on
`error: failed to push some refs to 'origin'`; it is `Repository.push`'s
verb-specific catch block that assigns `PushRejected` for that stderr. -/
theorem push_rejected_assigned_by_push_not_classifier :
    getGitErrorCode pushScenarioStderr = none ∧
    (pushRefine { stderr := some pushScenarioStderr }).gitErrorCode =
      some VsrErrorCodes.PushRejected := by
  constructor
  · decide
  · decide

/-- C5 counterexample: the status parser does not return an empty result on
empty input - `JSON.parse('')` throws, and `VsrStatusParser.update`
propagates the exception. -/
theorem statusParser_update_empty_fails :
    (VsrStatusParser.update VsrStatusParser.init []).isOk = false := rfl

/-- C5 (amended): on empty input the commit-log, tree-listing, index-listing,
submodule and name-status parsers all return an empty result, but the status
JSON parser fails with the `JSON.parse` syntax error. -/
theorem parsers_on_empty_input :
    parseGitCommits [] = .ok [] ∧
    parseLsTree [] = [] ∧
    parseLsFiles [] = [] ∧
    parseGitmodules [] = [] ∧
    (∀ root, diffFilesParse root [] = []) ∧
    VsrStatusParser.update VsrStatusParser.init [] =
      .error (.jsonError .unexpectedEnd) :=
  ⟨rfl, rfl, rfl, rfl, fun _ => rfl, rfl⟩

/-- C6 counterexample: with an empty binary path the runner throws a plain
`Error` carrying no error code at all (in particular not `ToolNotFound`), and
with a non-existent (non-empty) path a subprocess IS attempted - `cp.spawn`
runs and its `ENOENT` failure is wrapped with code `NotAGitRepository`. -/
theorem spawn_no_toolnotfound_counterexample :
    (Vsr.spawn [] [("status").toList]).errCode = none ∧
    Vsr.spawn (("/no/such/vsr").toList) [("status").toList] =
      .spawned [("status").toList, ("--nocolours").toList] ∧
    (cpErrorHandler (("spawn vsr ENOENT").toList)).errCode =
      some VsrErrorCodes.NotAGitRepository := by
  refine ⟨rfl, by decide, rfl⟩

/-- C6 (amended): an empty binary path makes `Vsr.spawn` throw a plain
`Error` (no error code) synchronously before any subprocess; a non-empty path
is always handed to `cp.spawn` (the subprocess attempt), and an `ENOENT`
spawn failure is classified by `cpErrorHandler` as a `GitError` with code
`NotAGitRepository`, not `ToolNotFound`. -/
theorem spawn_empty_path_plain_error :
    (∀ args, Vsr.spawn [] args =
      .threw (.plain (("vsr could not be found in the system.").toList))) ∧
    (∀ path args, path ≠ [] →
      Vsr.spawn path args = .spawned (args ++ [("--nocolours").toList])) ∧
    (∀ m, containsSub (("ENOENT").toList) m = true →
      cpErrorHandler m = .git { message := ("Failed to execute git (ENOENT)").toList,
                                gitErrorCode := some .NotAGitRepository }) := by
  refine ⟨fun args => rfl, fun path args hp => ?_, fun m hm => ?_⟩
  · unfold Vsr.spawn
    rw [if_neg hp]
  · unfold cpErrorHandler
    rw [if_pos hm]

/-- Witness for `spawn_empty_path_plain_error` at concrete inputs. -/
theorem spawn_empty_path_plain_error_witness :
    ((("/usr/bin/vsr").toList ≠ ([] : List Char)) ∧
      containsSub (("ENOENT").toList) (("spawn vsr ENOENT").toList) = true) ∧
    Vsr.spawn [] [("log").toList] =
      .threw (.plain (("vsr could not be found in the system.").toList)) ∧
    Vsr.spawn (("/usr/bin/vsr").toList) [("log").toList] =
      .spawned [("log").toList, ("--nocolours").toList] ∧
    cpErrorHandler (("spawn vsr ENOENT").toList) =
      .git { message := ("Failed to execute git (ENOENT)").toList,
             gitErrorCode := some .NotAGitRepository } :=
  ⟨⟨by decide, by decide⟩,
   spawn_empty_path_plain_error.1 [("log").toList],
   spawn_empty_path_plain_error.2.1 (("/usr/bin/vsr").toList) [("log").toList] (by decide),
   spawn_empty_path_plain_error.2.2 (("spawn vsr ENOENT").toList) (by decide)⟩

/-- C7 counterexample: a commit failure whose stderr is exactly
`unmerged files` (which contains "unmerged files" but not the full phrase the
code tests) is NOT promoted to `UnmergedChanges`, and both identity
configuration queries are performed. -/
theorem commit_unmerged_substring_counterexample :
    containsSub (("unmerged files").toList) (("unmerged files").toList) = true ∧
    Repository.commit (.error { stderr := some (("unmerged files").toList) })
        { userName := .ok [], userEmail := .ok [] } =
      (.error { stderr := some (("unmerged files").toList) }, true, true) :=
  ⟨by decide, rfl⟩

/-- C7 (amended): when the failure text matches the phrase the code actually
tests - `not possible because you have unmerged files` - the commit façade
surfaces `UnmergedChanges` and performs neither identity-configuration
query. -/
theorem commit_unmerged_phrase_skips_identity_check
    (e : GitErrorData) (env : IdentityEnv)
    (h : containsSub unmergedPhrase (e.stderr.getD []) = true) :
    Repository.commit (.error e) env =
      (.error { e with gitErrorCode := some VsrErrorCodes.UnmergedChanges }, false, false) := by
  simp [Repository.commit, Repository.handleCommitError, h]

/-- Witness for `commit_unmerged_phrase_skips_identity_check`. -/
theorem commit_unmerged_phrase_skips_identity_check_witness :
    containsSub unmergedPhrase
      ((GitErrorData.stderr
        { stderr := some (("commit is not possible because you have unmerged files").toList) }).getD [])
      = true ∧
    Repository.commit
        (.error { stderr := some (("commit is not possible because you have unmerged files").toList) })
        { userName := .ok [], userEmail := .ok [] } =
      (.error { stderr := some (("commit is not possible because you have unmerged files").toList)
                gitErrorCode := some VsrErrorCodes.UnmergedChanges }, false, false) :=
  ⟨by decide,
   commit_unmerged_phrase_skips_identity_check
     { stderr := some (("commit is not possible because you have unmerged files").toList) }
     { userName := .ok [], userEmail := .ok [] } (by decide)⟩

/-- C10: the `vsrStatus` getter returns itself, so reading it never produces
a value at any recursion depth, and consequently `Repository.getObjectDetails`
- which reads the getter after a successful non-empty status parse, and
throws in every other branch - never returns a details record for any input. -/
theorem vsrStatus_getter_never_terminates :
    (∀ (p : VsrStatusParser) (fuel : Nat), VsrStatusParser.vsrStatusGet p fuel = none) ∧
    (∀ (upd : Except UpdateErr VsrStatusParser) (fuel : Nat),
      (Repository.getObjectDetails upd fuel).isReturned = false) := by
  have hget : ∀ (p : VsrStatusParser) (fuel : Nat),
      VsrStatusParser.vsrStatusGet p fuel = none := by
    intro p fuel
    induction fuel with
    | zero => rfl
    | succ n ih => simpa [VsrStatusParser.vsrStatusGet] using ih
  refine ⟨hget, fun upd fuel => ?_⟩
  cases upd with
  | error e => rfl
  | ok p =>
    by_cases hlen : p.fileStatus.length = 0 <;>
      simp [Repository.getObjectDetails, hget, hlen, GetObjectDetailsResult.isReturned]

/-- Projection: a conjunction-shaped `all` gives `all` of the left part. -/
theorem all_and_left (p q : Char → Bool) (a : List Char)
    (h : a.all (fun c => p c && q c) = true) : a.all p = true := by
  simp only [List.all_eq_true, Bool.and_eq_true] at h ⊢
  exact fun c hc => (h c hc).1

/-- Projection: a conjunction-shaped `all` gives `all` of the right part. -/
theorem all_and_right (p q : Char → Bool) (a : List Char)
    (h : a.all (fun c => p c && q c) = true) : a.all q = true := by
  simp only [List.all_eq_true, Bool.and_eq_true] at h ⊢
  exact fun c hc => (h c hc).2

/-- The serialized record, reassociated to expose each line boundary. -/
theorem serRecord_append (r : CommitRecord) (t : List Char) :
    serRecord r ++ t =
      r.hash ++ Char.ofNat 10 :: (r.an ++ Char.ofNat 10 :: (r.ae ++ Char.ofNat 10 ::
        (r.ad ++ Char.ofNat 10 :: (r.cd ++ Char.ofNat 10 ::
          (r.parents ++ Char.ofNat 10 :: (r.msg ++ nulChar :: t)))))) := by
  simp [serRecord]

/-- `lineField` on a dot-only line followed by `\n` captures exactly the line. -/
theorem lineField_append (a b : List Char) (ha : a.all dotMatch = true) :
    lineField (a ++ Char.ofNat 10 :: b) = some (a, b) := by
  simp only [lineField]
  rw [takeWhile_append_cons dotMatch a _ b ha (by decide), List.drop_left]
  simp

/-- The regex tail succeeds on `\n` + NUL-free message + NUL. -/
theorem tryTail_ser (parents msg t : List Char) (hmsg : msg.all (· != nulChar) = true) :
    tryTail parents (Char.ofNat 10 :: (msg ++ nulChar :: t)) =
      some { parents := parents, message := some msg, rest := t } := by
  have hcont : (msg ++ nulChar :: t).contains nulChar = true := by
    simp [List.contains_eq_any_beq]
  simp only [tryTail]
  rw [if_pos (by simp [hcont])]
  rw [takeWhile_append_cons (· != nulChar) msg _ t hmsg (by simp),
      dropWhile_append_cons (· != nulChar) msg _ t hmsg (by simp)]
  simp

/-- When the full-length candidate for group 6 succeeds, the backtracking
loop returns its match (the longest candidate is tried first). -/
theorem g6Loop_full (run rest : List Char) (m : TailMatch)
    (h : tryTail run rest = some m) : g6Loop run rest run.length = some m := by
  cases hn : run.length with
  | zero =>
    have hr : run = [] := List.length_eq_zero.mp hn
    subst hr
    simpa [g6Loop] using h
  | succ k =>
    rw [g6Loop, ← hn, List.take_length, List.drop_length, List.nil_append, h]

/-- The group-6 stage on a serialized parents line, message and sentinel. -/
theorem g6Match_ser (parents msg t : List Char)
    (hpar : parents.all dotMatch = true) (hmsg : msg.all (· != nulChar) = true) :
    g6Match (parents ++ Char.ofNat 10 :: (msg ++ nulChar :: t)) =
      some { parents := parents, message := some msg, rest := t } := by
  simp only [g6Match]
  rw [takeWhile_append_cons dotMatch parents _ _ hpar (by decide), List.drop_left]
  exact g6Loop_full parents _ _ (tryTail_ser parents msg t hmsg)

/-- `matchAt` consumes exactly one well-formed serialized record. -/
theorem matchAt_serRecord (r : CommitRecord) (t : List Char) (h : wfRecord r = true) :
    matchAt (serRecord r ++ t) = some (rawOf r, t) := by
  simp only [wfRecord, Bool.and_eq_true, decide_eq_true_eq] at h
  obtain ⟨⟨⟨⟨⟨⟨⟨h1, h2⟩, h3⟩, h4⟩, h5⟩, h6⟩, h7⟩, h8⟩ := h
  rw [serRecord_append]
  unfold matchAt
  rw [List.take_left' h1, List.drop_left' h1]
  rw [if_pos (by simp [h1, h2])]
  show matchLines r.hash (r.an ++ Char.ofNat 10 :: (r.ae ++ Char.ofNat 10 ::
    (r.ad ++ Char.ofNat 10 :: (r.cd ++ Char.ofNat 10 ::
      (r.parents ++ Char.ofNat 10 :: (r.msg ++ nulChar :: t)))))) = some (rawOf r, t)
  unfold matchLines
  simp only [lineField_append _ _ (all_and_left _ _ _ h3),
             lineField_append _ _ (all_and_left _ _ _ h4),
             lineField_append _ _ (all_and_left _ _ _ h5),
             lineField_append _ _ (all_and_left _ _ _ h6),
             g6Match_ser _ _ _ (all_and_left _ _ _ h7) h8]
  rfl

/-- A successful `matchAt` at the scan position is what `findMatch` returns. -/
theorem findMatch_of_matchAt (s : List Char) (x : RawMatch × List Char)
    (h : matchAt s = some x) : findMatch s = some x := by
  cases s with
  | nil => simp [matchAt] at h
  | cons c t => simp [findMatch, h]

/-- `serLog` unfolds one record at a time. -/
theorem serLog_cons (r : CommitRecord) (rs : List CommitRecord) :
    serLog (r :: rs) = serRecord r ++ serLog rs := by
  simp [serLog]

/-- A serialized log has at least one character per record. -/
theorem length_serLog_ge (rs : List CommitRecord) : rs.length ≤ (serLog rs).length := by
  induction rs with
  | nil => simp [serLog]
  | cons r rs ih =>
    rw [serLog_cons, List.length_append, List.length_cons]
    have : 1 ≤ (serRecord r).length := by
      simp [serRecord]
      omega
    omega

/-- The parse loop maps a well-formed serialized log to its commits, given
enough fuel (one unit per record plus the final failing scan). -/
theorem parseLoop_serLog (rs : List CommitRecord) (fuel : Nat)
    (h : rs.all wfRecord = true) (hf : rs.length < fuel) :
    parseLoop fuel (serLog rs) = .ok (rs.map expectedCommit) := by
  induction rs generalizing fuel with
  | nil =>
    cases fuel with
    | zero => omega
    | succ f => simp [serLog, parseLoop, findMatch]
  | cons r rs ih =>
    simp only [List.all_cons, Bool.and_eq_true] at h
    cases fuel with
    | zero => omega
    | succ f =>
      have hfm := findMatch_of_matchAt _ _ (matchAt_serRecord r (serLog rs) h.1)
      have hrec := ih f h.2 (by simp at hf; omega)
      rw [serLog_cons]
      simp only [parseLoop, hfm, hrec, rawOf, commitOfMatch, List.map_cons]
      rfl

/-- C2: on well-formed commit-log text, `parseGitCommits` returns exactly one
commit per sentinel-terminated record, in source order, with the record's
40-hex-digit hash, the space-split parent field (empty field giving the empty
list) and the message with a single trailing newline stripped. -/
theorem parseGitCommits_wellFormed (rs : List CommitRecord) (h : rs.all wfRecord = true) :
    parseGitCommits (serLog rs) = .ok (rs.map expectedCommit) := by
  unfold parseGitCommits
  exact parseLoop_serLog rs _ h (by have := length_serLog_ge rs; omega)

set_option maxRecDepth 8000 in
/-- Witness for `parseGitCommits_wellFormed` on two concrete records. -/
theorem parseGitCommits_wellFormed_witness :
    [demoRec1, demoRec2].all wfRecord = true ∧
    parseGitCommits (serLog [demoRec1, demoRec2]) =
      .ok ([demoRec1, demoRec2].map expectedCommit) :=
  ⟨by decide, parseGitCommits_wellFormed [demoRec1, demoRec2] (by decide)⟩

/-- Convert a `!=`-style NUL-freeness fact to the predicate form used by
`splitChar_append`. -/
theorem all_ne_of_all_bne (sep : Char) (a : List Char) (h : a.all (· != sep) = true) :
    a.all (fun c => !(c = sep)) = true := by
  simp only [List.all_eq_true] at h ⊢
  intro c hc
  simpa using h c hc

/-- `serNs` unfolds one record at a time. -/
theorem serNs_cons (r : NsRec) (rs : List NsRec) (junk : List Char) :
    serNs (r :: rs) junk = serNsRec r ++ serNs rs junk := by
  simp [serNs]

/-- The entry loop stops, returning nothing, on any admissible junk tail. -/
theorem diffGo_junk (root junk : List Char) (h : junkOk junk = true) :
    diffGo root (splitChar nulChar junk) = [] := by
  cases junk with
  | nil => rfl
  | cons c t =>
    simp only [junkOk, Bool.not_eq_true', Bool.or_eq_false_iff, decide_eq_false_iff_not] at h
    obtain ⟨⟨⟨hM, hA⟩, hD⟩, hR⟩ := h
    obtain ⟨hd, tl, hsp⟩ : ∃ hd tl, splitChar nulChar t = hd :: tl := by
      cases hsp : splitChar nulChar t with
      | nil => exact absurd hsp (splitChar_ne_nil _ _)
      | cons hd tl => exact ⟨hd, tl, rfl⟩
    by_cases hc : c = nulChar
    · subst hc
      rw [show splitChar nulChar (nulChar :: t) = [] :: splitChar nulChar t from by
        simp [splitChar]]
      rw [hsp]
      rfl
    · rw [show splitChar nulChar (c :: t) = consHead c (splitChar nulChar t) from by
        simp [splitChar, hc]]
      rw [hsp]
      show diffGo root ((c :: hd) :: tl) = []
      cases tl with
      | nil => rfl
      | cons rp rest =>
        by_cases hrp : rp = []
        · subst hrp
          rw [diffGo.eq_def]
          simp
        · have hrpe : rp.isEmpty = false := by simpa [List.isEmpty_iff] using hrp
          rw [diffGo.eq_def]
          simp [hrpe, hM, hA, hD, hR]

/-- C8: on a NUL-separated stream of well-formed (statusLetter, path) pairs -
with one extra path per rename record - followed by a tail whose first entry
does not start with a recognized letter, `Repository.diffFiles`'s parsing
loop consumes exactly the records, in order, and stops at the tail without
error (the parser is a total function). -/
theorem diffFiles_records_then_junk (root : List Char) (rs : List NsRec) (junk : List Char)
    (h : rs.all wfNsRec = true) (hj : junkOk junk = true) :
    diffFilesParse root (serNs rs junk) = rs.map (expectedChange root) := by
  induction rs with
  | nil => simpa [diffFilesParse, serNs] using diffGo_junk root junk hj
  | cons r rs ih =>
    simp only [List.all_cons, Bool.and_eq_true] at h
    have hrec := ih h.2
    unfold diffFilesParse at hrec ⊢
    rw [serNs_cons]
    cases r with
    | simple st p =>
      cases st with
      | nil => exact absurd h.1 (by simp [wfNsRec])
      | cons c st' =>
        have hw := h.1
        simp only [wfNsRec, Bool.and_eq_true] at hw
        obtain ⟨⟨⟨hcl, hstn⟩, hpne⟩, hpn⟩ := hw
        rw [show serNsRec (.simple (c :: st') p) ++ serNs rs junk =
            (c :: st') ++ nulChar :: (p ++ nulChar :: serNs rs junk) from by
          simp [serNsRec]]
        rw [splitChar_append _ _ _ (all_ne_of_all_bne _ _ hstn),
            splitChar_append _ _ _ (all_ne_of_all_bne _ _ hpn)]
        have hpe : p.isEmpty = false := by
          simp only [Bool.not_eq_true'] at hpne
          exact hpne
        simp only [List.head?_cons, Option.some.injEq, decide_eq_true_eq,
                   Bool.or_eq_true] at hcl
        rcases hcl with (hc | hc) | hc <;> subst hc <;>
          rw [diffGo.eq_def] <;> simp [hpe, hrec, expectedChange]
    | ren st p np =>
      cases st with
      | nil => exact absurd h.1 (by simp [wfNsRec])
      | cons c st' =>
        have hw := h.1
        simp only [wfNsRec, Bool.and_eq_true] at hw
        obtain ⟨⟨⟨⟨⟨hcl, hstn⟩, hpne⟩, hpn⟩, hnpne⟩, hnpn⟩ := hw
        rw [show serNsRec (.ren (c :: st') p np) ++ serNs rs junk =
            (c :: st') ++ nulChar :: (p ++ nulChar :: (np ++ nulChar :: serNs rs junk)) from by
          simp [serNsRec]]
        rw [splitChar_append _ _ _ (all_ne_of_all_bne _ _ hstn),
            splitChar_append _ _ _ (all_ne_of_all_bne _ _ hpn),
            splitChar_append _ _ _ (all_ne_of_all_bne _ _ hnpn)]
        have hpe : p.isEmpty = false := by
          simp only [Bool.not_eq_true'] at hpne
          exact hpne
        have hnpe : np.isEmpty = false := by
          simp only [Bool.not_eq_true'] at hnpne
          exact hnpne
        simp only [List.head?_cons, Option.some.injEq, decide_eq_true_eq] at hcl
        subst hcl
        rw [diffGo.eq_def]
        simp [hpe, hnpe, hrec, expectedChange]

set_option maxRecDepth 4000 in
/-- Witness for `diffFiles_records_then_junk` on three concrete records and a
junk tail starting with an unrecognized letter. -/
theorem diffFiles_records_then_junk_witness :
    (demoNs.all wfNsRec = true ∧ junkOk demoJunk = true) ∧
    diffFilesParse (("/repo").toList) (serNs demoNs demoJunk) =
      demoNs.map (expectedChange (("/repo").toList)) :=
  ⟨⟨by decide, by decide⟩,
   diffFiles_records_then_junk (("/repo").toList) demoNs demoJunk (by decide) (by decide)⟩

/-- The header regex captures exactly the (quote-free, non-empty) name. -/
theorem sectionName_header (b : GmBlock) (hne : b.name ≠ [])
    (hq : b.name.all (fun c => !(c = dquote)) = true) :
    sectionName (gmHeaderLine b) = some b.name := by
  have ht := takeWhile_append_cons (fun c => !(c = dquote)) b.name dquote
    [Char.ofNat 93] hq (by decide)
  simp +decide [sectionName, gmHeaderLine, List.isPrefixOf, ht, hne]

/-- A `path = value` line is not a section header. -/
theorem sectionName_pathLine (b : GmBlock) : sectionName (gmPathLine b) = none := rfl

/-- A `url = value` line is not a section header. -/
theorem sectionName_urlLine (b : GmBlock) : sectionName (gmUrlLine b) = none := rfl

/-- A blank line is neither a header nor a property. -/
theorem gmParseLine_blank (st : GmState) : gmParseLine st [] = st := rfl

/-- The property regex captures the `path` key and the exact value. -/
theorem propertyKV_pathLine (b : GmBlock) (hd : Char) (tl : List Char) (hp : b.path = hd :: tl)
    (hh : jsWs hd = false) (hall : b.path.all dotMatch = true) :
    propertyKV (gmPathLine b) = some (("path").toList, b.path) := by
  rw [hp] at hall
  simp only [gmPathLine, hp]
  simp +decide [propertyKV, List.takeWhile_cons, List.dropWhile_cons, hh, hall]

/-- The property regex captures the `url` key and the exact value. -/
theorem propertyKV_urlLine (b : GmBlock) (hd : Char) (tl : List Char) (hp : b.url = hd :: tl)
    (hh : jsWs hd = false) (hall : b.url.all dotMatch = true) :
    propertyKV (gmUrlLine b) = some (("url").toList, b.url) := by
  rw [hp] at hall
  simp only [gmUrlLine, hp]
  simp +decide [propertyKV, List.takeWhile_cons, List.dropWhile_cons, hh, hall]

/-- Blank lines do not change the machine state. -/
theorem gmFoldl_replicate_blank (g : Nat) (lines : List (List Char)) (st : GmState) :
    (List.replicate g [] ++ lines).foldl gmParseLine st = lines.foldl gmParseLine st := by
  induction g with
  | zero => rfl
  | succ n ih => simpa [List.replicate_succ, gmParseLine_blank] using ih

/-- The header line of a well-formed block contains no line terminator. -/
theorem gmHeaderLine_all_dot (b : GmBlock) (hn : b.name.all dotMatch = true) :
    (gmHeaderLine b).all dotMatch = true := by
  simp +decide [gmHeaderLine, List.all_append, hn]

/-- The path line of a well-formed block contains no line terminator. -/
theorem gmPathLine_all_dot (b : GmBlock) (hp : b.path.all dotMatch = true) :
    (gmPathLine b).all dotMatch = true := by
  simp +decide [gmPathLine, List.all_append, hp]

/-- The url line of a well-formed block contains no line terminator. -/
theorem gmUrlLine_all_dot (b : GmBlock) (hp : b.url.all dotMatch = true) :
    (gmUrlLine b).all dotMatch = true := by
  simp +decide [gmUrlLine, List.all_append, hp]

/-- One well-formed block's three lines: flush the previous accumulator at
the header, then collect path and url. -/
theorem gmFoldBlock (b : GmBlock) (hb : wfGmBlock b = true) (st : GmState) :
    List.foldl gmParseLine st [gmHeaderLine b, gmPathLine b, gmUrlLine b] =
      { result := flushSubmodule st.cur st.result,
        cur := { name := some b.name, path := some b.path, url := some b.url } } := by
  simp only [wfGmBlock, Bool.and_eq_true] at hb
  obtain ⟨⟨⟨⟨⟨⟨⟨w1, w2⟩, w3⟩, w4⟩, w5⟩, w6⟩, w7⟩, w8⟩ := hb
  have hnne : b.name ≠ [] := by simpa [List.isEmpty_iff] using w1
  obtain ⟨ph, pt, hp⟩ : ∃ hd tl, b.path = hd :: tl := by
    cases hpp : b.path with
    | nil => rw [hpp] at w3; simp at w3
    | cons x xs => exact ⟨x, xs, rfl⟩
  obtain ⟨uh, ut, hu⟩ : ∃ hd tl, b.url = hd :: tl := by
    cases hpp : b.url with
    | nil => rw [hpp] at w6; simp at w6
    | cons x xs => exact ⟨x, xs, rfl⟩
  have hph : jsWs ph = false := by
    rw [hp] at w5
    simpa using w5
  have huh : jsWs uh = false := by
    rw [hu] at w8
    simpa using w8
  simp only [List.foldl_cons, List.foldl_nil]
  rw [show gmParseLine st (gmHeaderLine b) =
      { result := flushSubmodule st.cur st.result, cur := { name := some b.name } } from by
    unfold gmParseLine
    rw [sectionName_header b hnne (all_and_right _ _ _ w2)]]
  rw [show ∀ st2 : GmState, gmParseLine st2 (gmPathLine b) =
      { st2 with cur := { st2.cur with path := some b.path } } from fun st2 => by
    unfold gmParseLine
    rw [sectionName_pathLine, propertyKV_pathLine b ph pt hp hph w4]
    rfl]
  rw [show ∀ st2 : GmState, gmParseLine st2 (gmUrlLine b) =
      { st2 with cur := { st2.cur with url := some b.url } } from fun st2 => by
    unfold gmParseLine
    rw [sectionName_urlLine, propertyKV_urlLine b uh ut hu huh w7]
    rfl]

/-- `splitRN` cuts a serialized block list into its lines (plus the final
empty segment after the last `\n`). -/
theorem splitRN_serGm (bs : List (Nat × GmBlock))
    (h : bs.all (fun gb => wfGmBlock gb.2) = true) :
    splitRN (serGm bs) = gmLinesOf bs ++ [[]] := by
  induction bs with
  | nil => simp [serGm, gmLinesOf, splitRN]
  | cons gb bs ih =>
    simp only [List.all_cons, Bool.and_eq_true] at h
    have hw := h.1
    simp only [wfGmBlock, Bool.and_eq_true] at hw
    obtain ⟨⟨⟨⟨⟨⟨⟨w1, w2⟩, w3⟩, w4⟩, w5⟩, w6⟩, w7⟩, w8⟩ := hw
    rw [show serGm (gb :: bs) =
        List.replicate gb.1 (Char.ofNat 10) ++
          (gmHeaderLine gb.2 ++ Char.ofNat 10 ::
            (gmPathLine gb.2 ++ Char.ofNat 10 ::
              (gmUrlLine gb.2 ++ Char.ofNat 10 :: serGm bs))) from by
      simp [serGm]]
    rw [splitRN_replicate_nl,
        splitRN_append _ _ (gmHeaderLine_all_dot _ (all_and_left _ _ _ w2)),
        splitRN_append _ _ (gmPathLine_all_dot _ w4),
        splitRN_append _ _ (gmUrlLine_all_dot _ w7), ih h.2]
    rw [show gmLinesOf (gb :: bs) =
        List.replicate gb.1 [] ++
          (gmHeaderLine gb.2 :: gmPathLine gb.2 :: gmUrlLine gb.2 :: gmLinesOf bs) from by
      simp [gmLinesOf]]
    simp

/-- Folding the machine over the lines of well-formed blocks appends one
submodule per block to whatever the pending accumulator flushes to. -/
theorem gmFoldMachine (bs : List (Nat × GmBlock)) (st : GmState)
    (h : bs.all (fun gb => wfGmBlock gb.2) = true) :
    flushSubmodule ((gmLinesOf bs).foldl gmParseLine st).cur
        ((gmLinesOf bs).foldl gmParseLine st).result =
      flushSubmodule st.cur st.result ++ bs.map (fun gb => gmExpected gb.2) := by
  induction bs generalizing st with
  | nil => simp [gmLinesOf]
  | cons gb bs ih =>
    simp only [List.all_cons, Bool.and_eq_true] at h
    rw [show gmLinesOf (gb :: bs) =
        List.replicate gb.1 [] ++
          ([gmHeaderLine gb.2, gmPathLine gb.2, gmUrlLine gb.2] ++ gmLinesOf bs) from by
      simp [gmLinesOf]]
    rw [gmFoldl_replicate_blank, List.foldl_append, gmFoldBlock gb.2 h.1 st, ih _ h.2]
    have hw := h.1
    simp only [wfGmBlock, Bool.and_eq_true] at hw
    obtain ⟨⟨⟨⟨⟨⟨⟨w1, w2⟩, w3⟩, w4⟩, w5⟩, w6⟩, w7⟩, w8⟩ := hw
    simp only [Bool.not_eq_true'] at w1 w3 w6
    simp [flushSubmodule, w1, w3, w6, gmExpected]

/-- C9: parsing a generated `.gitmodules` text with K complete blocks returns
exactly K submodule records with the blocks' names, paths and urls, whatever
number of blank lines separates the blocks. -/
theorem parseGitmodules_roundTrip (bs : List (Nat × GmBlock))
    (h : bs.all (fun gb => wfGmBlock gb.2) = true) :
    parseGitmodules (serGm bs) = bs.map (fun gb => gmExpected gb.2) := by
  unfold parseGitmodules
  rw [splitRN_serGm bs h, List.foldl_append]
  simp only [List.foldl_cons, List.foldl_nil, gmParseLine_blank]
  simpa using gmFoldMachine bs { result := [], cur := {} } h

set_option maxRecDepth 4000 in
/-- Witness for `parseGitmodules_roundTrip` on two concrete blocks separated
by two blank lines. -/
theorem parseGitmodules_roundTrip_witness :
    demoGm.all (fun gb => wfGmBlock gb.2) = true ∧
    parseGitmodules (serGm demoGm) = demoGm.map (fun gb => gmExpected gb.2) :=
  ⟨by decide, parseGitmodules_roundTrip demoGm (by decide)⟩
